import Mathlib

/-
Verification development for the better-dom library (src/src/better-dom.js).
Each subsystem named by the specification is shallowly embedded below:
pure fragments of the JavaScript become Lean functions, the small amount of
state (wrapper caches, event registries, watch registries, node attributes)
becomes explicit record passing, and host primitives that are not part of
the repository (native selector matching, the HTML parser) are modelled
from the specification and marked as such.  JavaScript runtime values are
modelled by the JsVal type; absent values are JsVal.undef.
-/

/-- Model of a JavaScript runtime value, as far as the library inspects one:
typeof dispatch distinguishes strings, numbers, booleans, functions and
objects, and the library compares callbacks by identity (here: by a numeric
identity tag on the fn constructor). -/
inductive JsVal where
  | undef
  | jnull
  | jbool (b : Bool)
  | str (s : String)
  | num (n : Int)
  | fn (fid : Nat)
  | obj (oid : Nat)
deriving DecidableEq, Repr

/-- typeof v === "function" test used by the argument-shuffling code. -/
def isFn : JsVal → Bool
  | JsVal.fn _ => true
  | _ => false

/-- JavaScript truthiness as used by expressions such as el[name] || fallback. -/
def truthyJs : JsVal → Bool
  | JsVal.undef => false
  | JsVal.jnull => false
  | JsVal.jbool b => b
  | JsVal.str s => !s.isEmpty
  | JsVal.num n => n != 0
  | JsVal.fn _ => true
  | JsVal.obj _ => true

/-- String coercion applied by setAttribute to a non-string value (approximate,
only the cases the theorems touch are ever evaluated). -/
def jsToString : JsVal → String
  | JsVal.undef => "undefined"
  | JsVal.jnull => "null"
  | JsVal.jbool b => if b then "true" else "false"
  | JsVal.str s => s
  | JsVal.num n => toString n
  | JsVal.fn _ => "function"
  | JsVal.obj _ => "object"

/-- JavaScript String.prototype.split with a single-character separator:
splits at every occurrence, keeping empty pieces, and yields one piece even
for the empty string. -/
def splitCharSep (sep : Char) : List Char → List (List Char)
  | [] => [[]]
  | c :: rest =>
    match splitCharSep sep rest with
    | [] => [[]]
    | t :: ts => if c = sep then [] :: t :: ts else (c :: t) :: ts

/-- split(" ") and friends on Lean strings, via splitCharSep. -/
def jsSplit (sep : Char) (s : String) : List String :=
  (splitCharSep sep s.toList).map (fun cs => String.mk cs)

-- ---------------------------------------------------------------------------
-- C1: wrapper identity cache (better-dom.js lines 56-64 and 479-485)
-- ---------------------------------------------------------------------------

/-- A host node as far as the wrapper factory inspects it: just its
(expando) property __dom__, which the factory reads. -/
structure HostNode where
  domCache : Option Nat
deriving DecidableEq, Repr

/-- DOMNode(node) called without new (line 58):
return node ? node.__dom__ || new DOMNode(node) : new DOMNullNode().
The constructor body (lines 61-63) assigns this._node, this._data and
this._events and nothing else; in particular it never assigns
node.__dom__, so the returned node state is unchanged.  freshId stands for
the identity of the newly allocated wrapper.  DOMElement (lines 479-485)
has the same shape: it reads element.__dom__ and delegates to the DOMNode
constructor, which again never writes the cache. -/
def DOMNode.factory (node : HostNode) (freshId : Nat) : Nat × HostNode :=
  match node.domCache with
  | some w => (w, node)
  | none => (freshId, node)

-- ---------------------------------------------------------------------------
-- C2: SelectorMatcher (better-dom.js lines 1330-1380)
-- ---------------------------------------------------------------------------

/-- Negation of the CSS ASCII whitespace test (space, tab, LF, CR, FF). -/
def notWS (c : Char) : Bool :=
  !(c == ' ' || c == '\t' || c == '\n' || c == '\r' || c == '\x0c')

/-- Characters allowed by the regex class [\w\-] used for the id, attribute
and class groups of rquickIs. -/
def selNameChar (c : Char) : Bool := c.isAlphanum || c == '_' || c == '-'

/-- Fuel-driven worker for wsTokens (fuel keeps the recursion structural so
that concrete inputs evaluate inside the kernel). -/
def wsTokensF : Nat → List Char → List (List Char)
  | _, [] => []
  | 0, _ :: _ => []
  | f + 1, c :: rest =>
    if notWS c then (c :: rest.takeWhile notWS) :: wsTokensF f (rest.dropWhile notWS)
    else wsTokensF f rest

/-- The whitespace-separated tokens of a class attribute value.  Used by the
spec-modelled native matcher: a CSS class selector matches an element
exactly when the class name is one of these tokens. -/
def wsTokens (s : List Char) : List (List Char) := wsTokensF s.length s

/-- Boolean form of the substring test performed by
(" " + el.className + " ").indexOf(" " + cls + " ") at line 1371. -/
def jsContains (needle hay : List Char) : Bool := decide (needle <:+: hay)

/-- An element node as far as SelectorMatcher.test inspects it: nodeName,
id property, the set of present attribute names, and the raw className
string. -/
structure Elem where
  nodeName : List Char
  idAttr : List Char
  attrNames : List (List Char)
  className : List Char
deriving DecidableEq, Repr

/-- The four capture groups of rquickIs (line 1333):
(\w*) (#([\w\-]+))? (\[([\w\-]+)\])? (\.([\w\-]+))? .  Group 1 always
matches and may be empty; the other groups are optional. -/
structure QuickSelRaw where
  qtag : List Char
  qid : Option (List Char)
  qattr : Option (List Char)
  qcls : Option (List Char)
deriving DecidableEq, Repr

/-- Well-formedness of a capture result of rquickIs: each present group
consists of the characters its regex class admits, and the optional groups
are nonempty when present. -/
def optGroupWf : Option (List Char) → Prop
  | none => True
  | some k => k ≠ [] ∧ ∀ c ∈ k, selNameChar c = true

instance : DecidablePred optGroupWf := fun o => by
  cases o <;> simp [optGroupWf] <;> infer_instance

def QuickSelRaw.wf (q : QuickSelRaw) : Prop :=
  (∀ c ∈ q.qtag, (c.isAlphanum || c == '_') = true) ∧
  optGroupWf q.qid ∧ optGroupWf q.qattr ∧ optGroupWf q.qcls

/-- The state the SelectorMatcher constructor stores (lines 1334-1347):
the tag group lowercased, and the class group padded with spaces. -/
structure CompiledQuick where
  ctag : List Char
  cid : Option (List Char)
  cattr : Option (List Char)
  ccls : Option (List Char)
deriving DecidableEq, Repr

def SelectorMatcher.compile (q : QuickSelRaw) : CompiledQuick :=
  { ctag := q.qtag.map Char.toLower,
    cid := q.qid,
    cattr := q.qattr,
    ccls := q.qcls.map (fun k => ' ' :: k ++ [' ']) }

/-- SelectorMatcher.prototype.test, quick branch (lines 1366-1372):
(!quick[1] || el.nodeName.toLowerCase() === quick[1]) &&
(!quick[2] || el.id === quick[2]) &&
(!quick[3] || el.hasAttribute(quick[3])) &&
(!quick[4] || (" " + el.className + " ").indexOf(quick[4]) >= 0). -/
def SelectorMatcher.test (m : CompiledQuick) (el : Elem) : Bool :=
  (m.ctag.isEmpty || (el.nodeName.map Char.toLower == m.ctag)) &&
  ((m.cid.map (fun i => el.idAttr == i)).getD true) &&
  ((m.cattr.map (fun a => el.attrNames.contains a)).getD true) &&
  ((m.ccls.map (fun cp => jsContains cp (' ' :: el.className ++ [' ']))).getD true)

/-- Modelled from the spec: the generic fallback path delegates to the host
native selector-matching primitive (el.matchesSelector, line 1375), which is
not part of this repository.  For a quick-grammar selector the native
semantics are: case-insensitive tag-name equality, exact id equality,
attribute presence, and membership of the class name in the
whitespace-separated token list of the class attribute. -/
def nativeMatches (q : QuickSelRaw) (el : Elem) : Bool :=
  (q.qtag.isEmpty || (el.nodeName.map Char.toLower == q.qtag.map Char.toLower)) &&
  ((q.qid.map (fun i => el.idAttr == i)).getD true) &&
  ((q.qattr.map (fun a => el.attrNames.contains a)).getD true) &&
  ((q.qcls.map (fun k => decide (k ∈ wsTokens el.className))).getD true)

-- ---------------------------------------------------------------------------
-- C3 and C6: event binding registry (better-dom.js lines 265-468)
-- ---------------------------------------------------------------------------

/-- One entry of the eventHooks table (lines 301-322): an optional synonym
name and an optional capturing flag. -/
structure EventHook where
  hname : Option String
  hcapturing : Option Bool
deriving DecidableEq, Repr

/-- The eventHooks table.  focusinSupported is the result of the host probe
isEventSupported("input", "focusin"): when true, focus and blur are renamed
to focusin and focusout; when false they are registered capturing.  invalid
is always registered capturing. -/
def eventHooks (focusinSupported : Bool) (t : String) : Option EventHook :=
  if t = "focus" then
    some (if focusinSupported then { hname := some "focusin", hcapturing := none }
          else { hname := none, hcapturing := some true })
  else if t = "blur" then
    some (if focusinSupported then { hname := some "focusout", hcapturing := none }
          else { hname := none, hcapturing := some true })
  else if t = "invalid" then some { hname := none, hcapturing := some true }
  else none

/-- The name a type normalizes to: hook.name when the hook defines one
(used by on via _.mixin and by off and fire via hook.name). -/
def normalizeType (fs : Bool) (t : String) : String :=
  match eventHooks fs t with
  | some h => h.hname.getD t
  | none => t

/-- The capturing flag an entry gets: hook.capturing over the default false. -/
def hookCapturing (fs : Bool) (t : String) : Bool :=
  match eventHooks fs t with
  | some h => h.hcapturing.getD false
  | none => false

/-- One record pushed onto this._events by on (line 369). -/
structure EventEntry where
  ename : String
  callback : JsVal
  capturing : Bool
  handler : Nat
deriving DecidableEq, Repr

/-- One registration held by the host listener mechanism
(addEventListener).  The handler closure captures the callback, recorded
here so that dispatch can be modelled. -/
structure HostListener where
  lname : String
  handler : Nat
  capturing : Bool
  callback : JsVal
deriving DecidableEq, Repr

/-- The per-wrapper event state: this._events plus the host registrations. -/
structure NodeEvState where
  events : List EventEntry
  listeners : List HostListener
deriving DecidableEq, Repr

/-- addEventListener semantics: a registration with the same
(type, handler, capture) triple is not added twice. -/
def addEventListenerModel (st : NodeEvState) (l : HostListener) : NodeEvState :=
  if st.listeners.any (fun x => x.lname == l.lname && x.handler == l.handler && x.capturing == l.capturing)
  then st
  else { st with listeners := st.listeners ++ [l] }

/-- The per-type body of on (lines 341-370, W3C branch): build the entry by
mixing the hook over the defaults, create a fresh handler (h is its
identity; hooks in this source never supply one), register it with the
host, and push the entry onto this._events. -/
def DOMNode.onOne (fs : Bool) (st : NodeEvState) (event : String) (cb : JsVal) (h : Nat) : NodeEvState :=
  let entry : EventEntry :=
    { ename := normalizeType fs event, callback := cb,
      capturing := hookCapturing fs event, handler := h }
  let st1 := addEventListenerModel st
    { lname := entry.ename, handler := h, capturing := entry.capturing, callback := cb }
  { st1 with events := st1.events ++ [entry] }

/-- The string branch of on (lines 335-370): if the selector argument is a
function it becomes the callback (line 336-339), then the space-separated
types are processed in order; h0 is the identity of the first fresh
handler and the second component is the next free identity. -/
def DOMNode.onStr (fs : Bool) (st : NodeEvState) (event : String) (selector callback : JsVal)
    (h0 : Nat) : NodeEvState × Nat :=
  let cb := if isFn selector then selector else callback
  (jsSplit ' ' event).foldl (fun p ev => (DOMNode.onOne fs p.1 ev cb p.2, p.2 + 1)) (st, h0)

/-- The first argument of on, by its typeof: a string, a plain object
(iterated as key/value pairs, line 371-374), or anything else. -/
inductive EventArg where
  | str (s : String)
  | objPairs (ps : List (String × JsVal))
  | other
deriving DecidableEq, Repr

/-- DOMNode.prototype.on (lines 332-380).  Only a first argument that is
neither a string nor an object raises makeError("on") (line 376); the
callback argument itself is never validated. -/
def DOMNode.on (fs : Bool) (st : NodeEvState) (event : EventArg) (selector callback : JsVal)
    (h0 : Nat) : Except String NodeEvState :=
  match event with
  | EventArg.str s => Except.ok (DOMNode.onStr fs st s selector callback h0).1
  | EventArg.objPairs ps =>
    Except.ok ((ps.foldl (fun p kv => DOMNode.onStr fs p.1 kv.1 kv.2 JsVal.undef p.2) (st, h0)).1)
  | EventArg.other => Except.error "on"

/-- The match performed inside the off loop (lines 398-406): an entry
matches when its stored name equals the normalized type and the callback
argument is absent or identical to the stored callback; for each matching
entry, removeEventListener(type, entry.handler, entry.capturing) removes
the host registration with exactly that triple. -/
def offMatches (t : String) (cbArg : JsVal) (evs : List EventEntry) (l : HostListener) : Bool :=
  evs.any (fun e =>
    e.ename == t && (cbArg == JsVal.undef || cbArg == e.callback) &&
    l.lname == t && l.handler == e.handler && l.capturing == e.capturing)

/-- DOMNode.prototype.off (lines 389-409): validates that the type is a
string and the callback, if given, is a function (line 390); normalizes the
type; unregisters every matching host registration.  Note that the loop
never removes anything from this._events. -/
def DOMNode.off (fs : Bool) (st : NodeEvState) (eventType callback : JsVal) :
    Except String NodeEvState :=
  match eventType with
  | JsVal.str t0 =>
    if callback != JsVal.undef && !(isFn callback) then Except.error "off"
    else
      let t := normalizeType fs t0
      Except.ok { st with listeners := st.listeners.filter (fun l => !(offMatches t callback st.events l)) }
  | _ => Except.error "off"

/-- DOMNode.prototype.fire (lines 425-467): validates the type, normalizes
it, dispatches a synthetic event; the callbacks that run are those of the
host registrations whose type matches the dispatched name.  The result is
the list of invoked callbacks in registration order. -/
def DOMNode.fire (fs : Bool) (st : NodeEvState) (eventType : JsVal) : Except String (List JsVal) :=
  match eventType with
  | JsVal.str t0 =>
    let t := normalizeType fs t0
    Except.ok ((st.listeners.filter (fun l => l.lname == t)).map (fun l => l.callback))
  | _ => Except.error "fire"

-- ---------------------------------------------------------------------------
-- C4: null objects (better-dom.js lines 1090-1108)
-- ---------------------------------------------------------------------------

/-- The own enumerable method keys of DOMNode.prototype at line 1101:
the object-literal methods (lines 66-263) plus on, off and fire added by
the events module (lines 332, 389, 425). -/
def domNodeProtoKeys : List String :=
  ["find", "findAll", "getData", "setData", "contains", "on", "off", "fire"]

/-- The own enumerable method keys of DOMElement.prototype at line 1106,
in the order the source adds them (lines 495-1085). -/
def domElementProtoKeys : List String :=
  ["matches", "clone", "offset", "show", "hide", "toString",
   "get", "set",
   "next", "prev", "parent", "firstChild", "lastChild", "nextAll", "prevAll", "children",
   "after", "before", "prepend", "append", "replace", "remove",
   "hasClass", "addClass", "removeClass", "toggleClass",
   "getStyle", "setStyle"]

/-- What calling a method of the null wrapper returns.  The mixin at lines
1101-1108 replaces every key with function() {}, whose return value is
undefined; returning the sentinel itself would be the other possibility. -/
inductive NullCallResult where
  | undef
  | sentinel
deriving DecidableEq, Repr

/-- The methods DOMNullElement.prototype ends up with: every own key of
DOMNode.prototype and of DOMElement.prototype. -/
def nullElementOps : List String := domNodeProtoKeys ++ domElementProtoKeys

/-- Method dispatch on the null element wrapper: present keys all map to
function() {}, which returns undefined when invoked. -/
def nullElementCall (key : String) : Option NullCallResult :=
  if key ∈ nullElementOps then some NullCallResult.undef else none

-- ---------------------------------------------------------------------------
-- C5: DOM.watch (better-dom.js lines 1562-1626, animation branch)
-- ---------------------------------------------------------------------------

/-- Process-wide watch state: DOM._watchers maps a selector to the
comma-joined animation names used for it so far; styles records every
importStyles call as a (selector, rule text) pair in order; docListeners
records every document-level animation-start listener with the token it
filters on and the callback it delivers. -/
structure WatchState where
  watchers : List (String × String)
  styles : List (String × String)
  docListeners : List (String × String × Nat)
deriving DecidableEq, Repr

/-- DOM.importStyles as far as watch uses it: append one rule. -/
def importStylesModel (st : WatchState) (selector rules : String) : WatchState :=
  { st with styles := st.styles ++ [(selector, rules)] }

/-- The animation name "DOM" + new Date().getTime() generated per call
(line 1590); now stands for the current clock value. -/
def animName (now : Nat) : String := "DOM" ++ toString now

/-- The three vendor event names watch listens for (line 1585). -/
def animationStartNames : List String :=
  ["animationstart", "oAnimationStart", "webkitAnimationStart"]

/-- DOM.watch, non-IE branch (lines 1589-1624), with the css prefix of a
modern host (empty).  Every call generates a fresh animation name, always
registers a new keyframes rule and a new rule for the selector carrying the
accumulated comma-separated animation-name list, adds document listeners
filtered on the fresh name only, and stores the accumulated name list in
DOM._watchers. -/
def DOM.watch (st : WatchState) (selector : String) (cb : Nat) (now : Nat) : WatchState :=
  let animationName := animName now
  let allNames0 := (st.watchers.lookup selector).getD animationName
  let st1 := importStylesModel st ("@keyframes " ++ animationName)
    ("from \x7b clip: rect(1px, auto, auto, auto) \x7d to \x7b clip: rect(0px, auto, auto, auto) \x7d")
  let allNames := if allNames0 ≠ animationName then allNames0 ++ "," ++ animationName else allNames0
  let st2 := importStylesModel st1 selector
    ("animation-duration:0.001s;animation-name:" ++ allNames ++ " !important")
  let st3 := { st2 with docListeners := st2.docListeners ++
    animationStartNames.map (fun n => (n, animationName, cb)) }
  { st3 with watchers := (selector, allNames) :: st3.watchers.filter (fun p => p.1 ≠ selector) }

/-- The number of registered style rules whose selector is sel. -/
def stylesFor (st : WatchState) (sel : String) : Nat :=
  (st.styles.filter (fun p => p.1 = sel)).length

-- ---------------------------------------------------------------------------
-- C7: the fallback branch of find (better-dom.js lines 124-151)
-- ---------------------------------------------------------------------------

/-- The single-quote and backslash characters (kept out of literals). -/
def sqc : Char := Char.ofNat 39

def bsc : Char := Char.ofNat 92

/-- old.replace(/'|\\/g, "\\$&") at line 134: prefix every quote or
backslash with a backslash. -/
def rescapeId : List Char → List Char
  | [] => []
  | c :: rest =>
    if c == sqc || c == bsc then bsc :: c :: rescapeId rest
    else c :: rescapeId rest

/-- Array.prototype.join with a list separator. -/
def joinSep (sep : List Char) : List (List Char) → List Char
  | [] => []
  | [x] => x
  | x :: y :: ys => x ++ sep ++ joinSep sep (y :: ys)

/-- The scoping token "[id='…'] " built at line 139. -/
def nidBracket (nid : List Char) : List Char :=
  "[id=".toList ++ sqc :: (nid ++ sqc :: "] ".toList)

/-- selector = nid + selector.split(",").join("," + nid) at line 142, where
nid is already the bracketed prefix. -/
def scopeSelector (nidp sel : List Char) : List Char :=
  nidp ++ joinSep (',' :: nidp) (splitCharSep ',' sel)

/-- rsibling.test(selector) at line 141: the regex [\x20\t\r\n\f]*[+~>] is
unanchored, so the test holds exactly when the selector contains one of
the three combinator characters. -/
def rsiblingHit (sel : List Char) : Bool :=
  sel.any (fun c => c == '+' || c == '~' || c == '>')

/-- Observable outcome of the fallback branch: the selector string handed
to querySelector(All), the id attribute during the query, whether the
query context was moved to the parent, the propagated query outcome, and
the id attribute after the call (the finally block at lines 147-151 runs
on both the success and the throw path). -/
structure FallbackFind where
  scopedSel : List Char
  idDuring : Option (List Char)
  contextIsParent : Bool
  result : Except Unit Unit
  idAfter : Option (List Char)
deriving Repr

/-- The else-branch of find (lines 124-151) for a non-document root.
idAttr is getAttribute("id") before the call (none: absent; some []: the
attribute is present but empty).  Lines 133-137: a truthy old id is
escaped and reused, otherwise the temporary id is installed; line 142
applies the prefix to every comma branch; the finally block removes the id
attribute whenever old was falsy - including when it was the empty
string, in which case the originally present empty attribute is dropped. -/
def findFallback (tmp : List Char) (idAttr : Option (List Char)) (sel : List Char)
    (querySucceeds : Bool) : FallbackFind :=
  let oldTruthy : Bool := decide (idAttr.getD [] ≠ [])
  let nid : List Char := if oldTruthy then rescapeId (idAttr.getD []) else tmp
  let nidp := nidBracket nid
  { scopedSel := scopeSelector nidp sel,
    idDuring := if oldTruthy then idAttr else some tmp,
    contextIsParent := rsiblingHit sel,
    result := if querySucceeds then Except.ok () else Except.error (),
    idAfter := if oldTruthy then idAttr else none }

-- ---------------------------------------------------------------------------
-- C8: write-protected properties (better-dom.js lines 601-705)
-- ---------------------------------------------------------------------------

/-- The space-separated seed list at line 607. -/
def protectedSeeds : List String :=
  ["children", "childNodes", "elements", "parentNode",
   "firstElementChild", "lastElementChild", "nextElementSibling", "previousElementSibling"]

/-- key.replace("Element", "") at line 608: drop the first occurrence of
the pattern (each seed contains it at most once). -/
def replaceFirst (pat : List Char) : List Char → List Char
  | [] => []
  | c :: rest =>
    if pat.isPrefixOf (c :: rest) then (c :: rest).drop pat.length
    else c :: replaceFirst pat rest

def dropElementWord (s : String) : String :=
  String.mk (replaceFirst "Element".toList s.toList)

/-- The keys of propHooks carrying throwIllegalAccess for both get and set
(lines 606-612): each seed and its Element-stripped variant. -/
def protectedKeys : List String :=
  protectedSeeds ++ protectedSeeds.map dropElementWord

/-- An element as far as get and set inspect it: its live properties and
its attributes. -/
structure ElemProps where
  props : List (String × JsVal)
  attrs : List (String × String)
deriving DecidableEq, Repr

/-- DOMElement.prototype.get (lines 651-662) on a modern W3C host (the
conditional innerHTML and hidden hooks of lines 614-643 are absent there,
so propHooks holds exactly the protected entries): a non-string name or a
protected name raises makeError("get") - throwIllegalAccess at line 604
throws the "get" error for set as well; otherwise
el[name] || el.getAttribute(name). -/
def DOMElement.get (el : ElemProps) (name : JsVal) : Except String JsVal :=
  match name with
  | JsVal.str n =>
    if n ∈ protectedKeys then Except.error "get"
    else
      let v := (el.props.lookup n).getD JsVal.undef
      Except.ok (if truthyJs v then v
        else match el.attrs.lookup n with
          | some a => JsVal.str a
          | none => JsVal.jnull)
  | _ => Except.error "get"

/-- The per-name body of set (lines 681-693): protected hook throws the
"get" access error, null removes the attribute, an existing property is
assigned, anything else becomes an attribute. -/
def DOMElement.setOne (el : ElemProps) (n : String) (value : JsVal) : ElemProps × Option String :=
  if n ∈ protectedKeys then (el, some "get")
  else if value = JsVal.jnull then
    ({ el with attrs := el.attrs.filter (fun p => p.1 ≠ n) }, none)
  else if (el.props.lookup n).isSome then
    ({ el with props := (n, value) :: el.props.filter (fun p => p.1 ≠ n) }, none)
  else
    ({ el with attrs := (n, jsToString value) :: el.attrs.filter (fun p => p.1 ≠ n) }, none)

/-- forEach over the space-separated names; an exception aborts the loop,
keeping the mutations already made. -/
def setNames (el : ElemProps) (names : List String) (value : JsVal) : ElemProps × Option String :=
  match names with
  | [] => (el, none)
  | n :: rest =>
    let r := DOMElement.setOne el n value
    match r.2 with
    | some _ => r
    | none => setNames r.1 rest value

/-- The string-name branch of set (lines 676-693): a function value is
first applied to this.get(name) - which itself throws on a protected name
- then each space-separated name is processed.  fnApp gives the behavior
of the user function. -/
def DOMElement.setStr (fnApp : Nat → JsVal → JsVal) (el : ElemProps) (n : String) (value : JsVal) :
    ElemProps × Option String :=
  match value with
  | JsVal.fn fid =>
    match DOMElement.get el (JsVal.str n) with
    | Except.error e => (el, some e)
    | Except.ok cur => setNames el (jsSplit ' ' n) (fnApp fid cur)
  | _ => setNames el (jsSplit ' ' n) value

/-- The first argument of set, by its typeof. -/
inductive PropArg where
  | str (s : String)
  | objPairs (ps : List (String × JsVal))
  | other
deriving DecidableEq, Repr

/-- DOMElement.prototype.set (lines 671-703): string names go through
setStr, a plain object is iterated pairwise (an exception stops the
iteration), anything else raises makeError("set"). -/
def DOMElement.set (fnApp : Nat → JsVal → JsVal) (el : ElemProps) (name : PropArg) (value : JsVal) :
    ElemProps × Option String :=
  match name with
  | PropArg.str n => DOMElement.setStr fnApp el n value
  | PropArg.objPairs ps =>
    ps.foldl (fun acc kv =>
      match acc.2 with
      | some _ => acc
      | none => DOMElement.setStr fnApp acc.1 kv.1 kv.2) (el, none)
  | PropArg.other => (el, some "set")

-- ---------------------------------------------------------------------------
-- C9: DOM.create and findAll (better-dom.js lines 18-37, 96-166, 1196-1213,
--      1402-1416)
-- ---------------------------------------------------------------------------

mutual
/-- A host document node: an element with a tag name and children, or a
text node. -/
inductive DomTree where
  | el (tag : String) (children : DomForest)
  | text (s : String)
/-- A sibling list of host nodes (kept as its own inductive so that the
traversals below are structurally recursive). -/
inductive DomForest where
  | fnil
  | fcons (t : DomTree) (rest : DomForest)
end

def lowerStr (s : String) : String := String.mk (s.toList.map Char.toLower)

def upperStr (s : String) : String := String.mk (s.toList.map Char.toUpper)

def forestToList : DomForest → List DomTree
  | DomForest.fnil => []
  | DomForest.fcons t rest => t :: forestToList rest

def isElemNode : DomTree → Bool
  | DomTree.el _ _ => true
  | DomTree.text _ => false

/-- Modelled from the spec: the host getElementsByTagName collection over a
forest - every descendant element whose tag matches case-insensitively, in
document (pre)order. -/
def byTagForest (tag : String) : DomForest → List DomTree
  | DomForest.fnil => []
  | DomForest.fcons (DomTree.text _) rest => byTagForest tag rest
  | DomForest.fcons (DomTree.el t cs) rest =>
    (if lowerStr t = lowerStr tag then [DomTree.el t cs] else [])
      ++ byTagForest tag cs ++ byTagForest tag rest

/-- node.getElementsByTagName(tag): the matching descendants of the node. -/
def getElementsByTagName (root : DomTree) (tag : String) : List DomTree :=
  match root with
  | DomTree.el _ cs => byTagForest tag cs
  | DomTree.text _ => []

/-- The (\w+) alternative of rquickExpr (line 86): a nonempty word-only
selector is handled by the getElementsByTagName speed-up (line 115). -/
def isTagSelector (s : String) : Bool :=
  !s.isEmpty && s.toList.all (fun c => c.isAlphanum || c == '_')

/-- findAll = find(selector, true) on an element root, for a selector in
the tag alternative of the quick grammar (lines 114-115, 154, 164-166):
the full native collection, wrapped in order.  Other selector shapes take
the branches modelled for C7 and are not needed by the C9 scenario. -/
def findAllQuickTag (root : DomTree) (selector : String) : Option (List DomTree) :=
  if isTagSelector selector then some (getElementsByTagName root selector) else none

/-- sandbox.parse (lines 23-27): el.innerHTML = "shy;" + html puts a text
node "shy;" before the parsed content (for markup that starts with an
element), removeChild(el.firstChild) drops that text node, and el.children
keeps the element nodes.  hostParse is the host HTML parser, modelled from
the spec as a parameter. -/
def sandboxParse (hostParse : String → List DomTree) (html : String) : List DomTree :=
  ((DomTree.text "shy;" :: hostParse html).drop 1).filter isElemNode

/-- The argument of DOM.create, by its runtime shape. -/
inductive CreateArg where
  | str (s : String)
  | element (t : DomTree)
  | other

/-- The result of DOM.create: a wrapper collection, a single element
wrapper, or the "create" argument error. -/
inductive CreateResult where
  | collection (nodes : List DomTree)
  | element (t : DomTree)
  | err (s : String)

/-- DOM.create (lines 1402-1416): a string starting with "<" is parsed in
the sandbox and returned as a DOMElementCollection; another string becomes
document.createElement(content); an element is wrapped; anything else
raises makeError("create", "DOM"). -/
def DOM.create (hostParse : String → List DomTree) (content : CreateArg) : CreateResult :=
  match content with
  | CreateArg.str s =>
    if s.toList.head? = some '<' then CreateResult.collection (sandboxParse hostParse s)
    else CreateResult.element (DomTree.el (upperStr s) DomForest.fnil)
  | CreateArg.element t => CreateResult.element t
  | CreateArg.other => CreateResult.err "create"

/-- The own method keys of DOMElementCollection.prototype (lines 1201-1324):
each from the literal, then the shortcuts added by makeCollectionMethod. -/
def collectionMethods : List String :=
  ["each", "on", "off", "fire", "setData", "set", "setStyle",
   "addClass", "removeClass", "toggleClass"]

/-- The concrete markup of the C9 scenario. -/
def ulMarkup : String := "<ul><li>a</li><li>b</li></ul>"

def liA : DomTree := DomTree.el "LI" (DomForest.fcons (DomTree.text "a") DomForest.fnil)

def liB : DomTree := DomTree.el "LI" (DomForest.fcons (DomTree.text "b") DomForest.fnil)

/-- Modelled from the spec: the host parse of the C9 markup - one UL
element with two LI children holding the texts a and b, in document
order. -/
def ulParsed : DomTree :=
  DomTree.el "UL" (DomForest.fcons liA (DomForest.fcons liB DomForest.fnil))

-- ---------------------------------------------------------------------------
-- C10: the data store (better-dom.js lines 180-220)
-- ---------------------------------------------------------------------------

/-- A host node as far as getData reads it: its attributes. -/
structure DataHostNode where
  attrs : List (String × String)
deriving DecidableEq, Repr

/-- The wrapper-owned this._data store.  Reading an absent key yields
undefined, exactly as a missing JavaScript object property does. -/
structure DataStore where
  store : List (String × JsVal)
deriving DecidableEq, Repr

def DataStore.lookupJs (d : DataStore) (k : String) : JsVal :=
  (d.store.lookup k).getD JsVal.undef

def DataStore.insertJs (d : DataStore) (k : String) (v : JsVal) : DataStore :=
  { store := (k, v) :: d.store.filter (fun p => p.1 ≠ k) }

/-- DOMNode.prototype.getData (lines 180-193): a non-string key raises
makeError("getData"); otherwise the stored value is returned, except that
an undefined stored value with a present data- attribute is read from the
attribute and cached into this._data first. -/
def DOMNode.getData (d : DataStore) (node : DataHostNode) (key : JsVal) :
    Except String (JsVal × DataStore) :=
  match key with
  | JsVal.str k =>
    let result := d.lookupJs k
    if result = JsVal.undef then
      match node.attrs.lookup ("data-" ++ k) with
      | some a => Except.ok (JsVal.str a, d.insertJs k (JsVal.str a))
      | none => Except.ok (JsVal.undef, d)
    else Except.ok (result, d)
  | _ => Except.error "getData"

/-- The first argument of setData, by its typeof. -/
inductive DataKeyArg where
  | str (k : String)
  | objPairs (ps : List (String × JsVal))
  | other
deriving DecidableEq, Repr

/-- DOMNode.prototype.setData (lines 206-220): a string key stores the
value, an object stores every own pair, anything else raises
makeError("setData"). -/
def DOMNode.setData (d : DataStore) (key : DataKeyArg) (value : JsVal) :
    Except String DataStore :=
  match key with
  | DataKeyArg.str k => Except.ok (d.insertJs k value)
  | DataKeyArg.objPairs ps => Except.ok (ps.foldl (fun acc kv => acc.insertJs kv.1 kv.2) d)
  | DataKeyArg.other => Except.error "setData"

-- ---------------------------------------------------------------------------
-- Helper lemmas
-- ---------------------------------------------------------------------------

theorem lookupJs_insertJs (d : DataStore) (k : String) (v : JsVal) :
    (d.insertJs k v).lookupJs k = v := by
  simp [DataStore.insertJs, DataStore.lookupJs, List.lookup]

theorem protectedKeys_no_space : ∀ n ∈ protectedKeys, jsSplit ' ' n = [n] := by decide

theorem splitCharSep_ne_nil (sep : Char) (l : List Char) : splitCharSep sep l ≠ [] := by
  cases l with
  | nil => simp [splitCharSep]
  | cons c rest =>
    simp only [splitCharSep]
    cases h : splitCharSep sep rest with
    | nil => simp
    | cons t ts => by_cases hc : c = sep <;> simp [hc]

theorem joinSep_map_branches (nidp : List Char) (p : List Char) (ps : List (List Char)) :
    nidp ++ joinSep (',' :: nidp) (p :: ps) =
      joinSep [','] ((p :: ps).map (fun b => nidp ++ b)) := by
  induction ps generalizing p with
  | nil => simp [joinSep]
  | cons q qs ih =>
    simp only [joinSep, List.map_cons] at ih ⊢
    rw [← ih]
    simp [List.append_assoc]

theorem mem_addEventListener (st : NodeEvState) (nl x : HostListener)
    (hx : x ∈ (addEventListenerModel st nl).listeners) : x ∈ st.listeners ∨ x = nl := by
  unfold addEventListenerModel at hx
  by_cases h : st.listeners.any
      (fun y => y.lname == nl.lname && y.handler == nl.handler && y.capturing == nl.capturing)
  · rw [if_pos h] at hx
    exact Or.inl hx
  · rw [if_neg h] at hx
    simp only [List.mem_append, List.mem_singleton] at hx
    exact hx

theorem onOne_events (fs : Bool) (st : NodeEvState) (event : String) (cb : JsVal) (h : Nat) :
    (DOMNode.onOne fs st event cb h).events = st.events ++
      [{ ename := normalizeType fs event, callback := cb,
         capturing := hookCapturing fs event, handler := h }] := by
  unfold DOMNode.onOne addEventListenerModel
  by_cases hdup : st.listeners.any (fun y =>
      y.lname == normalizeType fs event && y.handler == h && y.capturing == hookCapturing fs event) <;>
    simp [hdup]

theorem onOne_listeners_sub (fs : Bool) (st : NodeEvState) (event : String) (cb : JsVal) (h : Nat)
    (x : HostListener) (hx : x ∈ (DOMNode.onOne fs st event cb h).listeners) :
    x ∈ st.listeners ∨
      x = { lname := normalizeType fs event, handler := h,
            capturing := hookCapturing fs event, callback := cb } := by
  unfold DOMNode.onOne at hx
  exact mem_addEventListener st _ x hx

-- ---------------------------------------------------------------------------
-- C1
-- ---------------------------------------------------------------------------

/-- C1: the claim states that wrapping the same host node twice returns the
identical wrapper instance.  In the code the factories read node.__dom__ as a
cache but no code path ever assigns it for document nodes (only DOMEvent at
line 1120 writes its own cache), so wrapping a fresh node twice constructs two
distinct wrappers and leaves the node without a cache entry: the first wrap
returns wrapper 0 and leaves the cache empty, and the second wrap returns the
distinct wrapper 1. -/
theorem C1_wrap_twice_not_cached :
    (DOMNode.factory { domCache := none } 0).1 = 0 ∧
    (DOMNode.factory { domCache := none } 0).2 = { domCache := none } ∧
    (DOMNode.factory (DOMNode.factory { domCache := none } 0).2 1).1 = 1 ∧
    (DOMNode.factory { domCache := none } 0).1 ≠
      (DOMNode.factory (DOMNode.factory { domCache := none } 0).2 1).1 := by
  decide

-- ---------------------------------------------------------------------------
-- C4
-- ---------------------------------------------------------------------------

/-- C4 counterexample: find exists on the null element wrapper, but invoking it
returns undefined, which is not the sentinel itself, so a chained call on the
result fails; the claim that every operation returns the sentinel is false. -/
theorem C4_null_find_returns_undef :
    nullElementCall "find" = some NullCallResult.undef ∧
    NullCallResult.undef ≠ NullCallResult.sentinel := by decide

/-- C4 amended: every public operation defined on a normal wrapper (the own
method keys of DOMNode.prototype and DOMElement.prototype) also exists on the
null element wrapper, and each is a no-op that returns undefined - not the
sentinel itself - so chains break on the first null result. -/
theorem C4_null_ops_exist_noop (key : String) (hk : key ∈ nullElementOps) :
    nullElementCall key = some NullCallResult.undef := by
  simp [nullElementCall, hk]

theorem C4_null_ops_exist_noop_witness :
    nullElementCall "fire" = some NullCallResult.undef :=
  C4_null_ops_exist_noop "fire" (by decide)

-- ---------------------------------------------------------------------------
-- C10
-- ---------------------------------------------------------------------------

/-- C10: once getData has returned a value read from the data- attribute, the
value is cached in this._data and every later getData returns the cached
value whatever the attributes then hold; the same holds after setData stores
a defined value. -/
theorem C10_data_store_caches (d : DataStore) (n : DataHostNode) (k a : String) (v : JsVal)
    (hmiss : d.lookupJs k = JsVal.undef)
    (hattr : n.attrs.lookup ("data-" ++ k) = some a)
    (hv : v ≠ JsVal.undef) :
    (∃ d2, DOMNode.getData d n (JsVal.str k) = Except.ok (JsVal.str a, d2) ∧
      ∀ n2 : DataHostNode, DOMNode.getData d2 n2 (JsVal.str k) = Except.ok (JsVal.str a, d2)) ∧
    (∀ d0 : DataStore, ∃ dd, DOMNode.setData d0 (DataKeyArg.str k) v = Except.ok dd ∧
      ∀ n2 : DataHostNode, DOMNode.getData dd n2 (JsVal.str k) = Except.ok (v, dd)) := by
  constructor
  · refine ⟨d.insertJs k (JsVal.str a), ?_, ?_⟩
    · simp [DOMNode.getData, hmiss, hattr]
    · intro n2
      simp [DOMNode.getData, lookupJs_insertJs]
  · intro d0
    refine ⟨d0.insertJs k v, rfl, ?_⟩
    intro n2
    simp [DOMNode.getData, lookupJs_insertJs, hv]

theorem C10_data_store_caches_witness :
    (∃ d2, DOMNode.getData { store := [] } { attrs := [("data-x", "1")] } (JsVal.str "x")
        = Except.ok (JsVal.str "1", d2) ∧
      ∀ n2 : DataHostNode, DOMNode.getData d2 n2 (JsVal.str "x") = Except.ok (JsVal.str "1", d2)) ∧
    (∀ d0 : DataStore, ∃ dd, DOMNode.setData d0 (DataKeyArg.str "x") (JsVal.str "y") = Except.ok dd ∧
      ∀ n2 : DataHostNode, DOMNode.getData dd n2 (JsVal.str "x") = Except.ok (JsVal.str "y", dd)) :=
  C10_data_store_caches { store := [] } { attrs := [("data-x", "1")] } "x" "1" (JsVal.str "y")
    (by decide) (by decide) (by decide)

-- ---------------------------------------------------------------------------
-- C5
-- ---------------------------------------------------------------------------

/-- C5 counterexample: after two watch calls on the same selector (at clock
times 1 and 2) there are two registered style rules for the selector, not
one, and the watch registry holds the comma-joined pair of per-call tokens
rather than a callback list under one shared token. -/
theorem C5_watch_duplicates_rules :
    stylesFor (DOM.watch (DOM.watch { watchers := [], styles := [], docListeners := [] } "a" 1 1)
      "a" 2 2) "a" = 2 ∧
    (DOM.watch (DOM.watch { watchers := [], styles := [], docListeners := [] } "a" 1 1)
      "a" 2 2).watchers.lookup "a" = some "DOM1,DOM2" := by
  constructor <;> decide

/-- C5 amended: every watch call - second and later calls included -
generates a fresh animation token, registers one more style rule for the
selector (plus a fresh keyframes rule), appends the fresh token to the
comma-joined token list stored for the selector, and adds its own document
listeners keyed to the fresh token; callbacks are not accumulated in a
shared list. -/
theorem C5_watch_appends_fresh_token (st : WatchState) (sel : String) (cb now : Nat)
    (hsel : sel ≠ "@keyframes " ++ animName now) :
    stylesFor (DOM.watch st sel cb now) sel = stylesFor st sel + 1 ∧
    (DOM.watch st sel cb now).watchers.lookup sel =
      some (match st.watchers.lookup sel with
        | some prev => if prev ≠ animName now then prev ++ "," ++ animName now else prev
        | none => animName now) ∧
    (DOM.watch st sel cb now).docListeners =
      st.docListeners ++ animationStartNames.map (fun nm => (nm, animName now, cb)) := by
  refine ⟨?_, ?_, ?_⟩
  · simp [DOM.watch, importStylesModel, stylesFor, List.filter_append, Ne.symm hsel]
  · cases hl : st.watchers.lookup sel with
    | none => simp [DOM.watch, importStylesModel, hl, List.lookup]
    | some prev =>
      by_cases hp : prev = animName now <;>
        simp [DOM.watch, importStylesModel, hl, hp, List.lookup]
  · simp [DOM.watch, importStylesModel]

theorem C5_watch_appends_fresh_token_witness :
    stylesFor (DOM.watch { watchers := [], styles := [], docListeners := [] } "a" 1 1) "a" =
      stylesFor { watchers := [], styles := [], docListeners := [] } "a" + 1 ∧
    (DOM.watch { watchers := [], styles := [], docListeners := [] } "a" 1 1).watchers.lookup "a" =
      some (match ({ watchers := [], styles := [], docListeners := [] } : WatchState).watchers.lookup "a" with
        | some prev => if prev ≠ animName 1 then prev ++ "," ++ animName 1 else prev
        | none => animName 1) ∧
    (DOM.watch { watchers := [], styles := [], docListeners := [] } "a" 1 1).docListeners =
      ({ watchers := [], styles := [], docListeners := [] } : WatchState).docListeners ++
        animationStartNames.map (fun nm => (nm, animName 1, 1)) :=
  C5_watch_appends_fresh_token { watchers := [], styles := [], docListeners := [] } "a" 1 1
    (by decide)

-- ---------------------------------------------------------------------------
-- C6
-- ---------------------------------------------------------------------------

/-- C6 counterexample: on with a valid string type and a non-function callback
argument does not raise an argument error; it registers a binding whose
callback is the invalid value, so binding state is left behind. -/
theorem C6_on_accepts_bad_callback :
    (match DOMNode.on true { events := [], listeners := [] } (EventArg.str "click")
        (JsVal.num 5) JsVal.undef 0 with
      | Except.ok s => s.events.length
      | Except.error _ => 0) = 1 := by decide

/-- C6 amended: on validates only its first argument (a value that is neither
a string nor an object raises the "on" argument error before any state
change) and accepts any callback value; off and fire validate their
arguments synchronously and return the argument error naming the operation
with the state untouched. -/
theorem C6_validation (fs : Bool) (st : NodeEvState) (selector callback cbv etv : JsVal)
    (t : String) (h0 : Nat)
    (hetv : ∀ s, etv ≠ JsVal.str s)
    (hcb : cbv ≠ JsVal.undef) (hcbf : isFn cbv = false) :
    DOMNode.on fs st EventArg.other selector callback h0 = Except.error "on" ∧
    DOMNode.off fs st (JsVal.str t) cbv = Except.error "off" ∧
    DOMNode.off fs st etv callback = Except.error "off" ∧
    DOMNode.fire fs st etv = Except.error "fire" ∧
    ∃ st2, DOMNode.on fs st (EventArg.str t) selector callback h0 = Except.ok st2 := by
  have hcond : (cbv != JsVal.undef && !isFn cbv) = true := by
    simp [bne_iff_ne, hcb, hcbf]
  refine ⟨rfl, ?_, ?_, ?_, ⟨_, rfl⟩⟩
  · simp [DOMNode.off, hcond]
  · cases etv with
    | str s => exact absurd rfl (hetv s)
    | undef => rfl
    | jnull => rfl
    | jbool b => rfl
    | num n => rfl
    | fn fid => rfl
    | obj oid => rfl
  · cases etv with
    | str s => exact absurd rfl (hetv s)
    | undef => rfl
    | jnull => rfl
    | jbool b => rfl
    | num n => rfl
    | fn fid => rfl
    | obj oid => rfl

theorem C6_validation_witness :
    DOMNode.on true { events := [], listeners := [] } EventArg.other JsVal.undef JsVal.undef 0
      = Except.error "on" ∧
    DOMNode.off true { events := [], listeners := [] } (JsVal.str "click") (JsVal.num 5)
      = Except.error "off" ∧
    DOMNode.off true { events := [], listeners := [] } (JsVal.num 3) JsVal.undef
      = Except.error "off" ∧
    DOMNode.fire true { events := [], listeners := [] } (JsVal.num 3) = Except.error "fire" ∧
    ∃ st2, DOMNode.on true { events := [], listeners := [] } (EventArg.str "click")
      JsVal.undef JsVal.undef 0 = Except.ok st2 :=
  C6_validation true { events := [], listeners := [] } JsVal.undef JsVal.undef (JsVal.num 5)
    (JsVal.num 3) "click" 0 (fun s => by simp) (by decide) (by decide)

-- ---------------------------------------------------------------------------
-- C7
-- ---------------------------------------------------------------------------

/-- C7 counterexample: a non-document root whose id attribute is present but
empty is treated as id-less (getAttribute returns the falsy empty string),
and the finally block then removes the id attribute entirely, so after the
call the attributes differ from before: the empty id attribute is gone. -/
theorem C7_empty_id_dropped :
    (findFallback "DOM1".toList (some []) "div p".toList true).idAfter = none ∧
    (none : Option (List Char)) ≠ some [] := by
  constructor
  · decide
  · decide

/-- C7 amended: in the fallback branch of find on a non-document root, a root
with no id attribute carries the temporary id for the duration of the query;
the scoping prefix (built from the pre-existing escaped id, or the temporary
id) is applied to every comma-separated branch of the selector; and on every
exit path - the query outcome is irrelevant to the cleanup - the id
attribute afterwards equals the id attribute before, provided the original
id attribute was not the empty string (an empty id attribute is treated as
absent and is removed afterwards). -/
theorem C7_fallback_scoping (tmp sel : List Char) (idAttr : Option (List Char)) (qok : Bool)
    (hid : idAttr ≠ some []) :
    (findFallback tmp idAttr sel qok).idAfter = idAttr ∧
    (idAttr = none → (findFallback tmp idAttr sel qok).idDuring = some tmp) ∧
    (idAttr = none → (findFallback tmp idAttr sel qok).scopedSel =
      joinSep [','] ((splitCharSep ',' sel).map (fun b => nidBracket tmp ++ b))) ∧
    (∀ a, idAttr = some a → (findFallback tmp idAttr sel qok).scopedSel =
      joinSep [','] ((splitCharSep ',' sel).map (fun b => nidBracket (rescapeId a) ++ b))) := by
  obtain ⟨p, ps, hps⟩ : ∃ p ps, splitCharSep ',' sel = p :: ps := by
    cases h : splitCharSep ',' sel with
    | nil => exact absurd h (splitCharSep_ne_nil ',' sel)
    | cons p ps => exact ⟨p, ps, rfl⟩
  refine ⟨?_, ?_, ?_, ?_⟩
  · cases idAttr with
    | none => simp [findFallback]
    | some a =>
      have ha : a ≠ [] := fun h => hid (by rw [h])
      simp [findFallback, ha]
  · intro h
    subst h
    simp [findFallback]
  · intro h
    subst h
    have hred : (findFallback tmp none sel qok).scopedSel = scopeSelector (nidBracket tmp) sel := by
      simp [findFallback]
    rw [hred]
    unfold scopeSelector
    rw [hps]
    exact joinSep_map_branches (nidBracket tmp) p ps
  · intro a h
    subst h
    have ha : a ≠ [] := fun h => hid (by rw [h])
    have hred : (findFallback tmp (some a) sel qok).scopedSel
        = scopeSelector (nidBracket (rescapeId a)) sel := by
      simp [findFallback, ha]
    rw [hred]
    unfold scopeSelector
    rw [hps]
    exact joinSep_map_branches (nidBracket (rescapeId a)) p ps

theorem C7_fallback_scoping_witness :
    (findFallback "DOM1".toList (none : Option (List Char)) "em,i".toList false).idAfter = none ∧
    ((none : Option (List Char)) = none →
      (findFallback "DOM1".toList none "em,i".toList false).idDuring = some "DOM1".toList) ∧
    ((none : Option (List Char)) = none →
      (findFallback "DOM1".toList none "em,i".toList false).scopedSel =
        joinSep [','] ((splitCharSep ',' "em,i".toList).map
          (fun b => nidBracket "DOM1".toList ++ b))) ∧
    (∀ a, (none : Option (List Char)) = some a →
      (findFallback "DOM1".toList none "em,i".toList false).scopedSel =
        joinSep [','] ((splitCharSep ',' "em,i".toList).map
          (fun b => nidBracket (rescapeId a) ++ b))) :=
  C7_fallback_scoping "DOM1".toList "em,i".toList none false (by simp)

-- ---------------------------------------------------------------------------
-- C8
-- ---------------------------------------------------------------------------

/-- C8: for every write-protected structural property name, get raises the
access error and set raises it as well (the shared throwIllegalAccess hook
throws the "get"-labelled error in both directions), and the element state
is not read into a result nor mutated: set returns the element unchanged
together with the error. -/
theorem C8_protected_access (el : ElemProps) (n : String) (v : JsVal)
    (fnApp : Nat → JsVal → JsVal) (hn : n ∈ protectedKeys) :
    DOMElement.get el (JsVal.str n) = Except.error "get" ∧
    DOMElement.set fnApp el (PropArg.str n) v = (el, some "get") := by
  have hget : DOMElement.get el (JsVal.str n) = Except.error "get" := by
    simp [DOMElement.get, hn]
  have hsplit := protectedKeys_no_space n hn
  refine ⟨hget, ?_⟩
  cases v with
  | fn fid => simp [DOMElement.set, DOMElement.setStr, hget]
  | undef => simp [DOMElement.set, DOMElement.setStr, hsplit, setNames, DOMElement.setOne, hn]
  | jnull => simp [DOMElement.set, DOMElement.setStr, hsplit, setNames, DOMElement.setOne, hn]
  | jbool b => simp [DOMElement.set, DOMElement.setStr, hsplit, setNames, DOMElement.setOne, hn]
  | str s => simp [DOMElement.set, DOMElement.setStr, hsplit, setNames, DOMElement.setOne, hn]
  | num m => simp [DOMElement.set, DOMElement.setStr, hsplit, setNames, DOMElement.setOne, hn]
  | obj oid => simp [DOMElement.set, DOMElement.setStr, hsplit, setNames, DOMElement.setOne, hn]

theorem C8_protected_access_witness :
    DOMElement.get { props := [], attrs := [] } (JsVal.str "parentNode") = Except.error "get" ∧
    DOMElement.set (fun _ x => x) { props := [], attrs := [] } (PropArg.str "parentNode")
      (JsVal.num 1) = ({ props := [], attrs := [] }, some "get") :=
  C8_protected_access { props := [], attrs := [] } "parentNode" (JsVal.num 1) (fun _ x => x)
    (by decide)

-- ---------------------------------------------------------------------------
-- C9
-- ---------------------------------------------------------------------------

/-- C9 counterexample: create applied to the scenario markup returns a
DOMElementCollection (wrapping the single parsed UL element), and
DOMElementCollection.prototype has no findAll method, so the chained
findAll call of the claim is not available on the value create returns. -/
theorem C9_create_collection_lacks_findAll :
    DOM.create (fun _ => [ulParsed]) (CreateArg.str ulMarkup)
      = CreateResult.collection [ulParsed] ∧
    "findAll" ∉ collectionMethods := by
  exact ⟨rfl, by decide⟩

/-- C9 amended: create on the scenario markup yields a collection holding
exactly the UL wrapper, and findAll("li") applied to that UL element (the
getElementsByTagName speed-up branch) yields the two LI elements in
document order, holding the texts a and b. -/
theorem C9_create_then_findAll (hp : String → List DomTree) (hhp : hp ulMarkup = [ulParsed]) :
    DOM.create hp (CreateArg.str ulMarkup) = CreateResult.collection [ulParsed] ∧
    findAllQuickTag ulParsed "li" = some [liA, liB] := by
  constructor
  · have h1 : DOM.create hp (CreateArg.str ulMarkup)
        = CreateResult.collection (sandboxParse hp ulMarkup) := by
      rw [DOM.create, if_pos (by decide : ulMarkup.toList.head? = some '<')]
    rw [h1]
    unfold sandboxParse
    rw [hhp]
    rfl
  · rfl

theorem C9_create_then_findAll_witness :
    DOM.create (fun _ => [ulParsed]) (CreateArg.str ulMarkup)
      = CreateResult.collection [ulParsed] ∧
    findAllQuickTag ulParsed "li" = some [liA, liB] :=
  C9_create_then_findAll (fun _ => [ulParsed]) rfl

-- ---------------------------------------------------------------------------
-- C3
-- ---------------------------------------------------------------------------

/-- C3 counterexample: after on("click", cb) followed by the matching
off("click", cb), the EventBinding record pushed by on is still present in
this._events - the off loop unregisters the host listener but never removes
entries from the array - so the number of records of that type/callback
pair is one, not zero. -/
theorem C3_events_record_retained :
    (match DOMNode.off true
        (DOMNode.onStr true { events := [], listeners := [] } "click" (JsVal.fn 7) JsVal.undef 0).1
        (JsVal.str "click") (JsVal.fn 7) with
      | Except.ok st2 =>
        (st2.events.filter (fun e => e.ename == "click" && e.callback == JsVal.fn 7)).length
      | Except.error _ => 0) = 1 := by decide

/-- C3 amended: on(type, cb) followed by off(type, cb) removes the host
registration created by on (though the EventBinding record stays in the
_events array), so a subsequent fire(type) does not invoke cb, provided no
unrelated host registration for that type/callback pair pre-existed. -/
theorem C3_off_deactivates (fs : Bool) (st : NodeEvState) (t : String) (f h0 : Nat)
    (hsplit : jsSplit ' ' t = [t])
    (hclean : ∀ l ∈ st.listeners, ¬(l.lname = normalizeType fs t ∧ l.callback = JsVal.fn f)) :
    ∃ st2,
      DOMNode.off fs (DOMNode.onStr fs st t (JsVal.fn f) JsVal.undef h0).1
        (JsVal.str t) (JsVal.fn f) = Except.ok st2 ∧
      ∀ cbs, DOMNode.fire fs st2 (JsVal.str t) = Except.ok cbs → JsVal.fn f ∉ cbs := by
  have hone : (DOMNode.onStr fs st t (JsVal.fn f) JsVal.undef h0).1
      = DOMNode.onOne fs st t (JsVal.fn f) h0 := by
    unfold DOMNode.onStr
    rw [hsplit]
    simp [isFn]
  rw [hone]
  have hoffok : DOMNode.off fs (DOMNode.onOne fs st t (JsVal.fn f) h0) (JsVal.str t) (JsVal.fn f)
      = Except.ok { DOMNode.onOne fs st t (JsVal.fn f) h0 with
          listeners := (DOMNode.onOne fs st t (JsVal.fn f) h0).listeners.filter
            (fun l => !(offMatches (normalizeType fs t) (JsVal.fn f)
              (DOMNode.onOne fs st t (JsVal.fn f) h0).events l)) } := by
    simp [DOMNode.off, isFn]
  refine ⟨_, hoffok, ?_⟩
  intro cbs hcbs hmem
  have hc : cbs = (((DOMNode.onOne fs st t (JsVal.fn f) h0).listeners.filter
      (fun l => !(offMatches (normalizeType fs t) (JsVal.fn f)
        (DOMNode.onOne fs st t (JsVal.fn f) h0).events l))).filter
      (fun l => l.lname == normalizeType fs t)).map (fun l => l.callback) := by
    simpa [DOMNode.fire] using hcbs.symm
  rw [hc] at hmem
  obtain ⟨l, hlmem, hlcb⟩ := List.mem_map.mp hmem
  obtain ⟨hl2, hlname⟩ := List.mem_filter.mp hlmem
  obtain ⟨hl3, hkeep⟩ := List.mem_filter.mp hl2
  have hlname2 : l.lname = normalizeType fs t := by simpa using hlname
  rcases onOne_listeners_sub fs st t (JsVal.fn f) h0 l hl3 with hold | hnew
  · exact hclean l hold ⟨hlname2, hlcb⟩
  · have hmem2 :
        ({ ename := normalizeType fs t, callback := JsVal.fn f,
           capturing := hookCapturing fs t, handler := h0 } : EventEntry)
          ∈ (DOMNode.onOne fs st t (JsVal.fn f) h0).events := by
      rw [onOne_events]
      simp
    have hmatch : offMatches (normalizeType fs t) (JsVal.fn f)
        (DOMNode.onOne fs st t (JsVal.fn f) h0).events l = true := by
      unfold offMatches
      rw [List.any_eq_true]
      exact ⟨_, hmem2, by rw [hnew]; simp⟩
    rw [hmatch] at hkeep
    simp at hkeep

theorem C3_off_deactivates_witness :
    ∃ st2,
      DOMNode.off true
        (DOMNode.onStr true { events := [], listeners := [] } "click" (JsVal.fn 7) JsVal.undef 0).1
        (JsVal.str "click") (JsVal.fn 7) = Except.ok st2 ∧
      ∀ cbs, DOMNode.fire true st2 (JsVal.str "click") = Except.ok cbs → JsVal.fn 7 ∉ cbs :=
  C3_off_deactivates true { events := [], listeners := [] } "click" 7 0 (by decide)
    (by intro l hl; simp at hl)

-- ---------------------------------------------------------------------------
-- C2 support lemmas
-- ---------------------------------------------------------------------------

theorem wsTokensF_nil (f : Nat) : wsTokensF f [] = [] := by cases f <;> rfl

theorem wsTokensF_irrel (f : Nat) : ∀ (g : Nat) (s : List Char),
    s.length ≤ f → s.length ≤ g → wsTokensF f s = wsTokensF g s := by
  induction f using Nat.strong_induction_on with
  | _ f ih =>
    intro g s hf hg
    cases s with
    | nil => rw [wsTokensF_nil, wsTokensF_nil]
    | cons c rest =>
      cases f with
      | zero => simp at hf
      | succ f2 =>
        cases g with
        | zero => simp at hg
        | succ g2 =>
          simp only [List.length_cons] at hf hg
          show (if notWS c then (c :: rest.takeWhile notWS) :: wsTokensF f2 (rest.dropWhile notWS)
              else wsTokensF f2 rest) =
            (if notWS c then (c :: rest.takeWhile notWS) :: wsTokensF g2 (rest.dropWhile notWS)
              else wsTokensF g2 rest)
          have hlen := (List.dropWhile_sublist (l := rest) notWS).length_le
          by_cases hc : notWS c
          · rw [if_pos hc, if_pos hc,
              ih f2 (by omega) g2 (rest.dropWhile notWS) (by omega) (by omega)]
          · rw [if_neg hc, if_neg hc]
            exact ih f2 (by omega) g2 rest (by omega) (by omega)

theorem wsTokens_nil : wsTokens [] = [] := rfl

theorem wsTokens_cons (c : Char) (rest : List Char) :
    wsTokens (c :: rest) =
      if notWS c then (c :: rest.takeWhile notWS) :: wsTokens (rest.dropWhile notWS)
      else wsTokens rest := by
  have hlen := (List.dropWhile_sublist (l := rest) notWS).length_le
  show (if notWS c then (c :: rest.takeWhile notWS) :: wsTokensF rest.length (rest.dropWhile notWS)
      else wsTokensF rest.length rest) = _
  by_cases hc : notWS c
  · rw [if_pos hc, if_pos hc]
    exact congrArg _ (wsTokensF_irrel rest.length (rest.dropWhile notWS).length
      (rest.dropWhile notWS) hlen (le_refl _))
  · rw [if_neg hc, if_neg hc]
    rfl

theorem takeWhile_all_eq {p : Char → Bool} : ∀ (xs : List Char), (∀ x ∈ xs, p x = true) →
    xs.takeWhile p = xs
  | [], _ => rfl
  | x :: xs, h => by
    rw [List.takeWhile_cons, if_pos (h x (by simp)),
      takeWhile_all_eq xs (fun y hy => h y (by simp [hy]))]

theorem dropWhile_all_eq {p : Char → Bool} : ∀ (xs : List Char), (∀ x ∈ xs, p x = true) →
    xs.dropWhile p = []
  | [], _ => rfl
  | x :: xs, h => by
    rw [List.dropWhile_cons, if_pos (h x (by simp)),
      dropWhile_all_eq xs (fun y hy => h y (by simp [hy]))]

theorem takeWhile_append_all {p : Char → Bool} : ∀ (xs ys : List Char),
    (∀ x ∈ xs, p x = true) → (xs ++ ys).takeWhile p = xs ++ ys.takeWhile p
  | [], ys, _ => rfl
  | x :: xs, ys, h => by
    rw [List.cons_append, List.takeWhile_cons, if_pos (h x (by simp)),
      takeWhile_append_all xs ys (fun y hy => h y (by simp [hy])), List.cons_append]

theorem dropWhile_append_all {p : Char → Bool} : ∀ (xs ys : List Char),
    (∀ x ∈ xs, p x = true) → (xs ++ ys).dropWhile p = ys.dropWhile p
  | [], ys, _ => rfl
  | x :: xs, ys, h => by
    rw [List.cons_append, List.dropWhile_cons, if_pos (h x (by simp))]
    exact dropWhile_append_all xs ys (fun y hy => h y (by simp [hy]))

theorem takeWhile_append_stop {p : Char → Bool} : ∀ (xs ys : List Char),
    ¬ (∀ x ∈ xs, p x = true) → (xs ++ ys).takeWhile p = xs.takeWhile p
  | [], ys, h => absurd (by simp) h
  | x :: xs, ys, h => by
    by_cases hx : p x = true
    · have h2 : ¬ ∀ y ∈ xs, p y = true := by
        intro hall
        exact h (fun y hy => by
          rcases List.mem_cons.mp hy with hy1 | hy2
          · rw [hy1]; exact hx
          · exact hall y hy2)
      rw [List.cons_append, List.takeWhile_cons, if_pos hx,
        takeWhile_append_stop xs ys h2, List.takeWhile_cons, if_pos hx]
    · rw [List.cons_append, List.takeWhile_cons, if_neg hx, List.takeWhile_cons, if_neg hx]

theorem dropWhile_append_stop {p : Char → Bool} : ∀ (xs ys : List Char),
    ¬ (∀ x ∈ xs, p x = true) → (xs ++ ys).dropWhile p = xs.dropWhile p ++ ys
  | [], ys, h => absurd (by simp) h
  | x :: xs, ys, h => by
    by_cases hx : p x = true
    · have h2 : ¬ ∀ y ∈ xs, p y = true := by
        intro hall
        exact h (fun y hy => by
          rcases List.mem_cons.mp hy with hy1 | hy2
          · rw [hy1]; exact hx
          · exact hall y hy2)
      rw [List.cons_append, List.dropWhile_cons, if_pos hx,
        dropWhile_append_stop xs ys h2, List.dropWhile_cons, if_pos hx]
    · rw [List.cons_append, List.dropWhile_cons, if_neg hx, List.dropWhile_cons, if_neg hx,
        List.cons_append]

theorem wsTokens_append_sep (b : List Char) : ∀ (n : Nat) (a : List Char), a.length ≤ n →
    wsTokens (a ++ ' ' :: b) = wsTokens a ++ wsTokens b := by
  intro n
  have hsp : ¬ notWS ' ' = true := by decide
  induction n with
  | zero =>
    intro a ha
    rw [List.length_eq_zero.mp (Nat.le_zero.mp ha), List.nil_append, wsTokens_cons,
      if_neg hsp, wsTokens_nil, List.nil_append]
  | succ n ih =>
    intro a ha
    cases a with
    | nil => rw [List.nil_append, wsTokens_cons, if_neg hsp, wsTokens_nil, List.nil_append]
    | cons c rest =>
      simp only [List.length_cons] at ha
      rw [List.cons_append, wsTokens_cons, wsTokens_cons]
      by_cases hc : notWS c
      · rw [if_pos hc, if_pos hc]
        by_cases hall : ∀ x ∈ rest, notWS x = true
        · rw [takeWhile_append_all rest (' ' :: b) hall,
            dropWhile_append_all rest (' ' :: b) hall,
            takeWhile_all_eq rest hall, dropWhile_all_eq rest hall,
            List.takeWhile_cons, if_neg hsp, List.dropWhile_cons, if_neg hsp,
            wsTokens_cons, if_neg hsp, wsTokens_nil]
          simp
        · rw [takeWhile_append_stop rest (' ' :: b) hall,
            dropWhile_append_stop rest (' ' :: b) hall]
          have hlen := (List.dropWhile_sublist (l := rest) notWS).length_le
          rw [ih (rest.dropWhile notWS) (by omega)]
          simp
      · rw [if_neg hc, if_neg hc]
        exact ih rest (by omega)

theorem wsTokens_split_at_space (a b : List Char) :
    wsTokens (a ++ ' ' :: b) = wsTokens a ++ wsTokens b :=
  wsTokens_append_sep b a.length a (le_refl _)

theorem wsTokens_single (cls : List Char) (h1 : cls ≠ []) (h2 : ∀ c ∈ cls, notWS c = true) :
    wsTokens cls = [cls] := by
  cases cls with
  | nil => exact absurd rfl h1
  | cons c rest =>
    rw [wsTokens_cons, if_pos (h2 c (by simp)),
      takeWhile_all_eq rest (fun y hy => h2 y (by simp [hy])),
      dropWhile_all_eq rest (fun y hy => h2 y (by simp [hy])), wsTokens_nil]

theorem append_single_split {α : Type} (a b c : List α) (x : α)
    (h : a ++ [x] = b ++ c) (hc : c ≠ []) :
    ∃ c2, c = c2 ++ [x] ∧ a = b ++ c2 := by
  have h1 : c.dropLast ++ [c.getLast hc] = c := List.dropLast_append_getLast hc
  rw [← h1, ← List.append_assoc] at h
  have h2 := List.append_inj' h (by simp)
  refine ⟨c.dropLast, ?_, h2.1⟩
  have hx : c.getLast hc = x := by
    have h3 := h2.2
    simp only [List.cons.injEq, and_true] at h3
    exact h3.symm
  rw [← hx]
  exact h1.symm

theorem dropWhile_head_neg {p : Char → Bool} : ∀ (l : List Char) (d : Char) (r : List Char),
    l.dropWhile p = d :: r → p d = false
  | [], d, r, h => by simp [List.dropWhile] at h
  | x :: xs, d, r, h => by
    by_cases hx : p x = true
    · rw [List.dropWhile_cons, if_pos hx] at h
      exact dropWhile_head_neg xs d r h
    · rw [List.dropWhile_cons, if_neg hx] at h
      injection h with h1 h2
      subst h1
      rwa [Bool.not_eq_true] at hx

theorem isInf_of_mem_wsTokens (cls : List Char) (h1 : cls ≠ []) (h2 : ∀ c ∈ cls, notWS c = true) :
    ∀ (n : Nat) (s : List Char), s.length ≤ n →
      (∀ c ∈ s, notWS c = false → c = ' ') → cls ∈ wsTokens s →
      (' ' :: cls ++ [' ']) <:+: (' ' :: s ++ [' ']) := by
  have hsp : ¬ notWS ' ' = true := by decide
  intro n
  induction n with
  | zero =>
    intro s hs hws hmem
    rw [List.length_eq_zero.mp (Nat.le_zero.mp hs), wsTokens_nil] at hmem
    simp at hmem
  | succ n ih =>
    intro s hs hws hmem
    cases s with
    | nil => rw [wsTokens_nil] at hmem; simp at hmem
    | cons c rest =>
      simp only [List.length_cons] at hs
      rw [wsTokens_cons] at hmem
      by_cases hc : notWS c
      · rw [if_pos hc] at hmem
        rcases List.mem_cons.mp hmem with heq | hmem2
        · have hsplit : c :: rest = cls ++ rest.dropWhile notWS := by
            rw [heq, List.cons_append, List.takeWhile_append_dropWhile]
          cases hdw : rest.dropWhile notWS with
          | nil =>
            refine ⟨[], [], ?_⟩
            rw [List.nil_append, List.append_nil, hsplit, hdw, List.append_nil]
          | cons d r2 =>
            have hd : notWS d = false := dropWhile_head_neg rest d r2 hdw
            have hdmem : d ∈ c :: rest := by
              refine List.mem_cons_of_mem c (List.Sublist.mem ?_ (List.dropWhile_sublist notWS))
              rw [hdw]
              simp
            have hdsp : d = ' ' := hws d hdmem hd
            refine ⟨[], r2 ++ [' '], ?_⟩
            rw [List.nil_append, List.cons_append, hsplit, hdw, hdsp]
            simp
        · cases hdw : rest.dropWhile notWS with
          | nil =>
            rw [hdw, wsTokens_nil] at hmem2
            simp at hmem2
          | cons d r2 =>
            have hd : notWS d = false := dropWhile_head_neg rest d r2 hdw
            have hdmem : d ∈ c :: rest := by
              refine List.mem_cons_of_mem c (List.Sublist.mem ?_ (List.dropWhile_sublist notWS))
              rw [hdw]
              simp
            have hdsp : d = ' ' := hws d hdmem hd
            have hlen := (List.dropWhile_sublist (l := rest) notWS).length_le
            have hws2 : ∀ x ∈ rest.dropWhile notWS, notWS x = false → x = ' ' := fun x hx hxw =>
              hws x (List.mem_cons_of_mem c (List.Sublist.mem hx (List.dropWhile_sublist notWS))) hxw
            obtain ⟨l, r, hlr⟩ := ih (rest.dropWhile notWS) (by omega) hws2 hmem2
            cases l with
            | nil =>
              exfalso
              rw [hdw, hdsp, List.nil_append, List.cons_append, List.cons_append] at hlr
              injection hlr with hx0 hlr2
              cases cls with
              | nil => exact h1 rfl
              | cons e cs =>
                rw [List.cons_append, List.cons_append] at hlr2
                injection hlr2 with he hrest2
                have := h2 e (by simp)
                rw [he] at this
                exact hsp this
            | cons x l2 =>
              rw [hdw, List.cons_append] at hlr
              injection hlr with hx0 hlr2
              simp only [List.append_eq] at hlr2
              refine ⟨' ' :: c :: rest.takeWhile notWS ++ l2, r, ?_⟩
              have hre : rest.takeWhile notWS ++ (d :: r2) = rest := by
                rw [← hdw, List.takeWhile_append_dropWhile]
              calc (' ' :: c :: rest.takeWhile notWS ++ l2) ++ (' ' :: cls ++ [' ']) ++ r
                  = ' ' :: c :: (rest.takeWhile notWS ++ (l2 ++ (' ' :: cls ++ [' ']) ++ r)) := by
                    simp [List.append_assoc]
                _ = ' ' :: c :: (rest.takeWhile notWS ++ (d :: r2 ++ [' '])) := by rw [hlr2]
                _ = ' ' :: (c :: rest) ++ [' '] := by
                    rw [← List.append_assoc, hre]
                    simp
      · rw [if_neg hc] at hmem
        have hcsp : c = ' ' := hws c (by simp) (Bool.not_eq_true _ ▸ hc)
        have hinf := ih rest (by omega) (fun x hx hxw => hws x (List.mem_cons_of_mem c hx) hxw) hmem
        have : ' ' :: (c :: rest) ++ [' '] = ' ' :: (' ' :: rest ++ [' ']) := by
          rw [hcsp]
          simp
        rw [this]
        exact List.infix_cons hinf

theorem mem_wsTokens_of_isInf (cls : List Char) (h1 : cls ≠ []) (h2 : ∀ c ∈ cls, notWS c = true)
    (s : List Char) (hinf : (' ' :: cls ++ [' ']) <:+: (' ' :: s ++ [' '])) :
    cls ∈ wsTokens s := by
  obtain ⟨l, r, hlr⟩ := hinf
  cases l with
  | nil =>
    rw [List.nil_append, List.cons_append, List.cons_append] at hlr
    injection hlr with hx0 h
    simp only [List.append_eq] at h
    -- h : (cls ++ [' ']) ++ r = s ++ [' ']
    cases hr : r with
    | nil =>
      rw [hr, List.append_nil] at h
      obtain ⟨hcs, _⟩ := List.append_inj' h (by simp)
      rw [← hcs, wsTokens_single cls h1 h2]
      simp
    | cons r0 rr =>
      obtain ⟨r2, hr2, hs2⟩ := append_single_split s (cls ++ [' ']) r ' ' (by rw [h]) (by rw [hr]; simp)
      rw [hs2, List.append_assoc, List.singleton_append, wsTokens_split_at_space,
        wsTokens_single cls h1 h2]
      simp
  | cons x l2 =>
    rw [List.cons_append, List.cons_append] at hlr
    injection hlr with hx0 h
    simp only [List.append_eq] at h
    -- h : l2 ++ (' ' :: cls ++ [' ']) ++ r = s ++ [' ']
    cases hr : r with
    | nil =>
      rw [hr, List.append_nil] at h
      have h3 : (l2 ++ ' ' :: cls) ++ [' '] = s ++ [' '] := by
        rw [← h]
        simp [List.append_assoc]
      obtain ⟨hcs, _⟩ := List.append_inj' h3 (by simp)
      rw [← hcs, wsTokens_split_at_space, wsTokens_single cls h1 h2]
      simp
    | cons r0 rr =>
      have h3 : s ++ [' '] = (l2 ++ (' ' :: cls ++ [' '])) ++ r := by
        rw [← h]
      obtain ⟨r2, hr2, hs2⟩ := append_single_split s (l2 ++ (' ' :: cls ++ [' '])) r ' '
        h3 (by rw [hr]; simp)
      have hs3 : s = l2 ++ ' ' :: (cls ++ ' ' :: r2) := by
        rw [hs2]
        simp [List.append_assoc]
      rw [hs3, wsTokens_split_at_space, wsTokens_split_at_space, wsTokens_single cls h1 h2]
      simp

theorem quick_class_iff (cls s : List Char) (h1 : cls ≠ []) (h2 : ∀ c ∈ cls, notWS c = true)
    (hs : ∀ c ∈ s, notWS c = false → c = ' ') :
    ((' ' :: cls ++ [' ']) <:+: (' ' :: s ++ [' '])) ↔ cls ∈ wsTokens s :=
  ⟨mem_wsTokens_of_isInf cls h1 h2 s,
   isInf_of_mem_wsTokens cls h1 h2 s.length s (le_refl _) hs⟩

theorem selNameChar_not_ws (c : Char) (h : selNameChar c = true) : notWS c = true := by
  have h5 : ¬ (c = ' ' ∨ c = '\t' ∨ c = '\n' ∨ c = '\r' ∨ c = '\x0c') := by
    rintro (rfl | rfl | rfl | rfl | rfl) <;> exact absurd h (by decide)
  simp only [not_or] at h5
  obtain ⟨n1, n2, n3, n4, n5⟩ := h5
  simp [notWS, beq_iff_eq, n1, n2, n3, n4, n5]

-- ---------------------------------------------------------------------------
-- C2
-- ---------------------------------------------------------------------------

/-- C2 counterexample: for the quick-grammar selector .b and an element whose
className separates its classes with a tab, the quick test returns false
(the padded indexOf check only recognises space separators) while the
native semantics match (CSS splits the class attribute on any ASCII
whitespace), so the claimed agreement fails on that node. -/
theorem C2_tab_class_mismatch :
    SelectorMatcher.test (SelectorMatcher.compile
        { qtag := [], qid := none, qattr := none, qcls := some ['b'] })
      { nodeName := "div".toList, idAttr := [], attrNames := [], className := ['a', '\t', 'b'] }
      = false ∧
    nativeMatches { qtag := [], qid := none, qattr := none, qcls := some ['b'] }
      { nodeName := "div".toList, idAttr := [], attrNames := [], className := ['a', '\t', 'b'] }
      = true := by
  constructor <;> decide

/-- C2 amended: for every selector accepted by the quick grammar (a
well-formed capture of rquickIs with at least one component) and every
element whose className uses only the space character as whitespace,
SelectorMatcher.test agrees with the native fallback matching semantics on
that element.  Without the restriction on className the claim fails, as the
counterexample shows. -/
theorem C2_quick_agrees_native (q : QuickSelRaw) (el : Elem)
    (hwf : q.wf)
    (hnz : q.qtag ≠ [] ∨ q.qid ≠ none ∨ q.qattr ≠ none ∨ q.qcls ≠ none)
    (hcn : ∀ c ∈ el.className, notWS c = false → c = ' ') :
    SelectorMatcher.test (SelectorMatcher.compile q) el = nativeMatches q el := by
  obtain ⟨qtag, qid, qattr, qcls⟩ := q
  cases qcls with
  | none =>
    cases qtag with
    | nil => rfl
    | cons t ts => rfl
  | some k =>
    obtain ⟨hk1, hk2⟩ : k ≠ [] ∧ ∀ c ∈ k, selNameChar c = true := hwf.2.2.2
    have he : jsContains (' ' :: k ++ [' ']) (' ' :: el.className ++ [' '])
        = decide (k ∈ wsTokens el.className) := by
      unfold jsContains
      exact decide_eq_decide.mpr
        (quick_class_iff k el.className hk1 (fun c hc => selNameChar_not_ws c (hk2 c hc)) hcn)
    simp only [List.cons_append] at he
    cases qtag with
    | nil => simp [SelectorMatcher.test, SelectorMatcher.compile, nativeMatches, he]
    | cons t ts => simp [SelectorMatcher.test, SelectorMatcher.compile, nativeMatches, he]

theorem C2_quick_agrees_native_witness :
    SelectorMatcher.test (SelectorMatcher.compile
        { qtag := "li".toList, qid := none, qattr := none, qcls := some "b-x".toList })
      { nodeName := "LI".toList, idAttr := [], attrNames := ["href".toList],
        className := "a b-x".toList }
      = nativeMatches { qtag := "li".toList, qid := none, qattr := none, qcls := some "b-x".toList }
      { nodeName := "LI".toList, idAttr := [], attrNames := ["href".toList],
        className := "a b-x".toList } :=
  C2_quick_agrees_native
    { qtag := "li".toList, qid := none, qattr := none, qcls := some "b-x".toList }
    { nodeName := "LI".toList, idAttr := [], attrNames := ["href".toList],
      className := "a b-x".toList }
    (by constructor
        · decide
        · exact ⟨trivial, by decide, by decide⟩)
    (by left; decide)
    (by decide)
